import Mathlib

/-!
Shallow embedding of the Benford's-Law analysis core shared by
`scripts/benford_analysis.py` and `scripts/benford_excel_report.py`.

Numeric cell values are modelled as exact rationals; the floating-point
statistics (proportions, chi-square, MAD) are modelled over the reals, with
`Real.logb 10` standing for `math.log10`.
-/

/-- A raw scalar cell value as the scripts see one: a missing/null marker
(`pd.isna(value)` is true), a scalar that `float(value)` cannot convert
(raises `TypeError`/`ValueError`), or a numeric value, modelled as an exact
rational. -/
inductive Value where
  | missing
  | nonNumeric
  | num (q : ℚ)
deriving DecidableEq

/-- One row of the per-digit detail table built in `analyze_numeric_column`. -/
structure DetailRow where
  sheet : String
  column : String
  digit : ℕ
  count : ℕ
  proportion : ℝ
  expected_proportion : ℝ
  difference : ℝ

/-- The per-column summary dict built in `analyze_numeric_column`. -/
structure ColumnSummary where
  sheet : String
  column : String
  total_values : ℕ
  chi_square : ℝ
  mad : ℝ

/-- One row of the pooled `overall_table` of `benford_excel_report.py`. -/
structure OverallRow where
  digit : ℕ
  actual_count : ℕ
  actual_percent : ℝ
  expected_percent : ℝ

/-- Multiplying a positive rational by 10 raises its base-10 integer
logarithm by exactly one; this is what makes the scale-up loop of
`leading_digit` terminate. -/
theorem int_log_mul_ten (q : ℚ) (hq : 0 < q) :
    Int.log 10 (q * 10) = Int.log 10 q + 1 := by
  have hb : (1 : ℕ) < 10 := by norm_num
  have hq10 : 0 < q * 10 := by positivity
  have hlow : ((10 : ℕ) : ℚ) ^ (Int.log 10 q + 1) ≤ q * 10 := by
    have h := Int.zpow_log_le_self (b := 10) (R := ℚ) hb hq
    rw [zpow_add_one₀ (by norm_num)]
    push_cast
    push_cast at h
    nlinarith
  have hhigh : q * 10 < ((10 : ℕ) : ℚ) ^ (Int.log 10 q + 1 + 1) := by
    have h := Int.lt_zpow_succ_log_self (b := 10) (R := ℚ) hb q
    rw [zpow_add_one₀ (by norm_num)]
    push_cast
    push_cast at h
    nlinarith
  have h1 := (Int.zpow_le_iff_le_log hb hq10).mp hlow
  have h2 := (Int.lt_zpow_iff_log_lt hb hq10).mp hhigh
  omega

/-- A positive rational below 1 has a negative base-10 integer logarithm. -/
theorem int_log_neg_of_lt_one (q : ℚ) (hq : 0 < q) (h1 : q < 1) :
    Int.log 10 q < 0 := by
  have hb : (1 : ℕ) < 10 := by norm_num
  have : q < ((10 : ℕ) : ℚ) ^ (0 : ℤ) := by simpa using h1
  exact (Int.lt_zpow_iff_log_lt hb hq).mp this

namespace BenfordAnalysis

/-- `int(str(number)[0])` for a value `number ≥ 1`: the first character of
the decimal representation is the most significant digit of the integer
part, obtained by dividing by 10 until fewer than two digits remain. -/
def msd (n : ℕ) : ℕ :=
  if h : n < 10 then n else msd (n / 10)
termination_by n
decreasing_by exact Nat.div_lt_self (by omega) (by omega)

/-- The `while number < 1: number *= 10` loop of `leading_digit`. The loop
runs on `abs(number)` for a nonzero `number`, so its argument is positive,
which is what makes it terminate. -/
def scaleUp (q : ℚ) (hq : 0 < q) : ℚ :=
  if q < 1 then scaleUp (q * 10) (by positivity) else q
termination_by (-(Int.log 10 q)).toNat
decreasing_by
  have h1 := int_log_mul_ten q hq
  have h2 := int_log_neg_of_lt_one q hq (by assumption)
  omega

/-- `leading_digit` of `benford_analysis.py`: missing and non-convertible
values give `None`; numeric zero gives `None`; otherwise the absolute value
is scaled up by tens until at least 1 and the first digit of its decimal
representation is read, with the source's final guard mapping a first digit
of 0 to `None`. -/
def leading_digit (value : Value) : Option ℕ :=
  match value with
  | .missing => none
  | .nonNumeric => none
  | .num q =>
    if h : q = 0 then none
    else
      let number := scaleUp |q| (abs_pos.mpr h)
      let digit := msd ⌊number⌋₊
      if digit = 0 then none else some digit

/-- `expected_benford_distribution`: the dict `digit ↦ log10(1 + 1/digit)`
over digits 1..9, modelled as a function on ℕ. -/
noncomputable def expected_benford_distribution : ℕ → ℝ :=
  fun digit => Real.logb 10 (1 + 1 / (digit : ℝ))

/-- `series.map(leading_digit).dropna().astype(int)`: the valid leading
digits of a column, in input order. -/
def extractedDigits (series : List Value) : List ℕ :=
  series.filterMap leading_digit

/-- `total = int(digits.shape[0])`. -/
def totalValues (series : List Value) : ℕ :=
  (extractedDigits series).length

/-- `digits.value_counts().reindex(range(1, 10), fill_value=0)` read at one
digit: the number of occurrences of that digit. -/
def digitCount (series : List Value) (digit : ℕ) : ℕ :=
  (extractedDigits series).count digit

/-- `proportions = counts / total if total > 0 else counts.astype(float)`
read at one digit. -/
noncomputable def proportionOf (series : List Value) (digit : ℕ) : ℝ :=
  if 0 < totalValues series then (digitCount series digit : ℝ) / (totalValues series : ℝ)
  else (digitCount series digit : ℝ)

/-- `analyze_numeric_column` of `benford_analysis.py`: the nine detail rows
(digits 1..9 in order) and the summary, with the `total > 0` guards of
lines 36, 46, 48 and 52 reproduced verbatim. -/
noncomputable def analyze_numeric_column (series : List Value)
    (sheet_name column_name : String) : List DetailRow × ColumnSummary :=
  let total := totalValues series
  let detail_rows : List DetailRow := (List.range' 1 9).map fun digit =>
    { sheet := sheet_name
      column := column_name
      digit := digit
      count := digitCount series digit
      proportion := if 0 < total then proportionOf series digit else 0
      expected_proportion := expected_benford_distribution digit
      difference :=
        if 0 < total then proportionOf series digit - expected_benford_distribution digit
        else -expected_benford_distribution digit }
  let chi_square : ℝ :=
    if 0 < total then
      ((List.range' 1 9).map fun digit =>
        ((digitCount series digit : ℝ) - expected_benford_distribution digit * (total : ℝ)) ^ 2 /
          (expected_benford_distribution digit * (total : ℝ))).sum
    else 0
  let mad : ℝ :=
    if 0 < total then
      ((List.range' 1 9).map fun digit =>
        |proportionOf series digit - expected_benford_distribution digit|).sum / 9
    else 0
  (detail_rows,
   { sheet := sheet_name
     column := column_name
     total_values := total
     chi_square := chi_square
     mad := mad })

/-- `summary_df.sort_values("mad", ascending=False).head(10)` with pandas'
default `kind="quicksort"` (numpy introsort), which pandas documents as
unstable: the result is specified only up to the order of equal keys. The
ranking step is therefore modelled as a relation: `output` is a possible
result iff it is the first ten rows of some permutation of the summaries
that is non-increasing in `mad`. -/
def IsTopDeviations (summaries output : List ColumnSummary) : Prop :=
  ∃ sorted : List ColumnSummary,
    sorted.Perm summaries ∧
    sorted.Pairwise (fun a b => b.mad ≤ a.mad) ∧
    output = sorted.take 10

end BenfordAnalysis

/-- A summary with `mad = 0`, for exercising ties in the ranking step. -/
def tieA : ColumnSummary :=
  { sheet := "S1", column := "A", total_values := 1, chi_square := 0, mad := 0 }

/-- A second summary with the same `mad` as `tieA` but another column name. -/
def tieB : ColumnSummary :=
  { sheet := "S1", column := "B", total_values := 1, chi_square := 0, mad := 0 }

/-- An uncaught Python exception escaping `leading_digit`. -/
inductive PyError where
  | overflowError
  | valueError
deriving DecidableEq

/-- The full Python scalar domain for the totality analysis of
`leading_digit`. Beyond the cases of `Value`, `float(value)` can raise
`OverflowError` (a huge Python `int` such as `10 ** 400`), or return an
infinity (an infinite float, or a string such as `1e999` that parses to
one), or return a NaN from a scalar that `pd.isna` does not treat as
missing (the string `nan`; an actual NaN float is caught by `pd.isna`). -/
inductive PyValue where
  | missing
  | nonNumeric
  | overflowing
  | infinite
  | nanString
  | num (q : ℚ)
deriving DecidableEq

/-- `leading_digit` of `benford_analysis.py` over the full scalar domain,
with uncaught exceptions made explicit: `Except.error` names the escaping
exception. The `try` block catches only `TypeError` and `ValueError` from
`float(value)`, so an `OverflowError` escapes; an infinite or NaN `number`
is not missing, not zero and not `< 1`, so it survives the guards and the
scale-up loop and reaches `int(str(number)[0])`, where the first character
of `inf` or `nan` raises an uncaught `ValueError`. Finite conversions
follow the already-embedded `BenfordAnalysis.leading_digit`. -/
def leading_digit_py (value : PyValue) : Except PyError (Option ℕ) :=
  match value with
  | .missing => .ok none
  | .nonNumeric => .ok none
  | .overflowing => .error .overflowError
  | .infinite => .error .valueError
  | .nanString => .error .valueError
  | .num q => .ok (BenfordAnalysis.leading_digit (Value.num q))

namespace BenfordExcelReport

/-- `int(str(number)[0])` for a value `number ≥ 1`, as in `BenfordAnalysis.msd`. -/
def msd (n : ℕ) : ℕ :=
  if h : n < 10 then n else msd (n / 10)
termination_by n
decreasing_by exact Nat.div_lt_self (by omega) (by omega)

/-- The `while number < 1: number *= 10` loop of `leading_digit` in
`benford_excel_report.py` (identical to the one in `benford_analysis.py`). -/
def scaleUp (q : ℚ) (hq : 0 < q) : ℚ :=
  if q < 1 then scaleUp (q * 10) (by positivity) else q
termination_by (-(Int.log 10 q)).toNat
decreasing_by
  have h1 := int_log_mul_ten q hq
  have h2 := int_log_neg_of_lt_one q hq (by assumption)
  omega

/-- `leading_digit` of `benford_excel_report.py`, duplicated verbatim from
`benford_analysis.py`. -/
def leading_digit (value : Value) : Option ℕ :=
  match value with
  | .missing => none
  | .nonNumeric => none
  | .num q =>
    if h : q = 0 then none
    else
      let number := scaleUp |q| (abs_pos.mpr h)
      let digit := msd ⌊number⌋₊
      if digit = 0 then none else some digit

/-- `expected_benford_distribution` of `benford_excel_report.py`. -/
noncomputable def expected_benford_distribution : ℕ → ℝ :=
  fun digit => Real.logb 10 (1 + 1 / (digit : ℝ))

/-- `series.map(leading_digit).dropna().astype(int)`. -/
def extractedDigits (series : List Value) : List ℕ :=
  series.filterMap leading_digit

/-- `total = int(digits.shape[0])`. -/
def totalValues (series : List Value) : ℕ :=
  (extractedDigits series).length

/-- `digits.value_counts().reindex(range(1, 10), fill_value=0)` at one digit. -/
def digitCount (series : List Value) (digit : ℕ) : ℕ :=
  (extractedDigits series).count digit

/-- `proportions = counts / total if total > 0 else counts.astype(float)`. -/
noncomputable def proportionOf (series : List Value) (digit : ℕ) : ℝ :=
  if 0 < totalValues series then (digitCount series digit : ℝ) / (totalValues series : ℝ)
  else (digitCount series digit : ℝ)

/-- `analyze_numeric_column` of `benford_excel_report.py`, duplicated
verbatim from `benford_analysis.py`. -/
noncomputable def analyze_numeric_column (series : List Value)
    (sheet_name column_name : String) : List DetailRow × ColumnSummary :=
  let total := totalValues series
  let detail_rows : List DetailRow := (List.range' 1 9).map fun digit =>
    { sheet := sheet_name
      column := column_name
      digit := digit
      count := digitCount series digit
      proportion := if 0 < total then proportionOf series digit else 0
      expected_proportion := expected_benford_distribution digit
      difference :=
        if 0 < total then proportionOf series digit - expected_benford_distribution digit
        else -expected_benford_distribution digit }
  let chi_square : ℝ :=
    if 0 < total then
      ((List.range' 1 9).map fun digit =>
        ((digitCount series digit : ℝ) - expected_benford_distribution digit * (total : ℝ)) ^ 2 /
          (expected_benford_distribution digit * (total : ℝ))).sum
    else 0
  let mad : ℝ :=
    if 0 < total then
      ((List.range' 1 9).map fun digit =>
        |proportionOf series digit - expected_benford_distribution digit|).sum / 9
    else 0
  (detail_rows,
   { sheet := sheet_name
     column := column_name
     total_values := total
     chi_square := chi_square
     mad := mad })

/-- The corpus handed to the main loop of `benford_excel_report.py`:
ordered sheets, each with its ordered numeric columns and their raw cell
values. -/
abbrev Corpus := List (String × List (String × List Value))

/-- The `all_digits` accumulator of `main`: for every sheet and numeric
column, the column's extracted digits are appended when the digit series is
nonempty (`if not digits.empty: all_digits.extend(digits.tolist())`). -/
def all_digits (corpus : Corpus) : List ℕ :=
  corpus.flatMap fun sheet =>
    sheet.2.flatMap fun col =>
      let digits := extractedDigits col.2
      if digits.isEmpty then [] else digits

/-- The `summary_rows` accumulator of `main`: one summary per analyzed
column, in sheet then column order. -/
noncomputable def summary_rows (corpus : Corpus) : List ColumnSummary :=
  corpus.flatMap fun sheet =>
    sheet.2.map fun col => (analyze_numeric_column col.2 sheet.1 col.1).2

/-- `overall_counts = all_digit_series.value_counts().reindex(range(1, 10),
fill_value=0)` at one digit. -/
def overall_count (corpus : Corpus) (digit : ℕ) : ℕ :=
  (all_digits corpus).count digit

/-- `overall_total = int(overall_counts.sum())`: the sum of the nine
reindexed per-digit counts. -/
def overall_total (corpus : Corpus) : ℕ :=
  ((List.range' 1 9).map fun digit => overall_count corpus digit).sum

/-- `overall_proportions = overall_counts / overall_total if overall_total
> 0 else overall_counts.astype(float)` at one digit. -/
noncomputable def overall_proportion (corpus : Corpus) (digit : ℕ) : ℝ :=
  if 0 < overall_total corpus then
    (overall_count corpus digit : ℝ) / (overall_total corpus : ℝ)
  else (overall_count corpus digit : ℝ)

/-- The `overall_table` DataFrame of `main`: digits 1..9 with their pooled
count, pooled percent and expected percent. -/
noncomputable def overall_table (corpus : Corpus) : List OverallRow :=
  (List.range' 1 9).map fun digit =>
    { digit := digit
      actual_count := overall_count corpus digit
      actual_percent := overall_proportion corpus digit
      expected_percent := expected_benford_distribution digit }

end BenfordExcelReport

namespace BenfordAnalysis

/-- The first decimal digit read by `msd` is at most 9. -/
theorem msd_le_nine (n : ℕ) : msd n ≤ 9 := by
  induction n using msd.induct with
  | case1 n h => rw [msd]; simp [h]; omega
  | case2 n h ih => rw [msd]; simp [h]; exact ih

/-- Any digit `leading_digit` returns lies in 1..9. -/
theorem leading_digit_range (v : Value) (d : ℕ) (h : leading_digit v = some d) :
    1 ≤ d ∧ d ≤ 9 := by
  cases v with
  | missing => simp [leading_digit] at h
  | nonNumeric => simp [leading_digit] at h
  | num q =>
    rw [leading_digit] at h
    split at h
    · exact absurd h (by simp)
    · dsimp only at h
      split at h
      · exact absurd h (by simp)
      · rename_i hdig
        obtain rfl : _ = d := Option.some_inj.mp h
        exact ⟨by omega, msd_le_nine _⟩

/-- Every extracted digit of a column lies in 1..9. -/
theorem mem_extractedDigits (series : List Value) (x : ℕ)
    (hx : x ∈ extractedDigits series) : 1 ≤ x ∧ x ≤ 9 := by
  obtain ⟨v, _, hlv⟩ := List.mem_filterMap.mp hx
  exact leading_digit_range v x hlv

end BenfordAnalysis

/-- A sum of a function over the list `[1, ..., 9]` is the matching sum over
the finite interval `Finset.Icc 1 9`. -/
theorem sum_map_range_eq_sum_Icc {M : Type} [AddCommMonoid M] (f : ℕ → M) :
    ((List.range' 1 9).map f).sum = ∑ d ∈ Finset.Icc 1 9, f d := by
  rw [Nat.Icc_eq_range']
  rfl

/-- For a list of digits that all lie in 1..9, the per-digit counts over
1..9 add up to the length of the list. -/
theorem sum_Icc_count_eq_length (l : List ℕ) (hl : ∀ x ∈ l, 1 ≤ x ∧ x ≤ 9) :
    ∑ d ∈ Finset.Icc 1 9, l.count d = l.length := by
  have hm : ∀ a ∈ (↑l : Multiset ℕ), a ∈ Finset.Icc 1 9 := by
    intro a ha
    rw [Multiset.mem_coe] at ha
    have := hl a ha
    rw [Finset.mem_Icc]
    omega
  have h := Multiset.sum_count_eq_card (s := Finset.Icc 1 9) (m := (↑l : Multiset ℕ)) hm
  simpa [Multiset.coe_count] using h

namespace BenfordAnalysis

/-- Concrete evaluation: the leading digit of 1 is 1. -/
theorem leading_digit_one : leading_digit (Value.num 1) = some 1 := by
  norm_num [leading_digit]
  rw [scaleUp]
  norm_num
  rw [msd]
  norm_num

/-- Concrete evaluation: the leading digit of -45 is 4. -/
theorem leading_digit_neg45 : leading_digit (Value.num (-45)) = some 4 := by
  norm_num [leading_digit]
  rw [scaleUp]
  norm_num
  rw [msd]
  norm_num
  rw [msd]
  norm_num

/-- Concrete evaluation: the leading digit of 0.0032 is 3. -/
theorem leading_digit_small : leading_digit (Value.num 0.0032) = some 3 := by
  norm_num [leading_digit]
  have habs : |(2 / 625 : ℚ)| = 2 / 625 := by norm_num
  simp only [habs]
  rw [scaleUp]; norm_num
  rw [scaleUp]; norm_num
  rw [scaleUp]; norm_num
  rw [scaleUp]; norm_num
  have hfl : ⌊(16 / 5 : ℚ)⌋₊ = 3 := by norm_num [Nat.floor_div_nat, Nat.floor_eq_iff]
  simp only [hfl]
  rw [msd]
  norm_num

/-- Concrete evaluation: the leading digit of 7 is 7. -/
theorem leading_digit_seven : leading_digit (Value.num 7) = some 7 := by
  norm_num [leading_digit]
  rw [scaleUp]
  norm_num
  rw [msd]
  norm_num

end BenfordAnalysis

/-- C3: over the full Python scalar domain `leading_digit` is not total: a
huge integer escapes the `except` clause with an uncaught `OverflowError`,
and an input converting to an infinity or to a non-missing NaN crashes with
an uncaught `ValueError` at `int(str(number)[0])`; on every remaining input
the function does return a digit in 1..9 or absent, with missing,
non-numeric and zero inputs yielding absent. -/
theorem C3_leading_digit_totality_fails :
    leading_digit_py PyValue.overflowing = Except.error PyError.overflowError ∧
    leading_digit_py PyValue.infinite = Except.error PyError.valueError ∧
    leading_digit_py PyValue.nanString = Except.error PyError.valueError ∧
    leading_digit_py PyValue.missing = Except.ok none ∧
    leading_digit_py PyValue.nonNumeric = Except.ok none ∧
    leading_digit_py (PyValue.num 0) = Except.ok none ∧
    ∀ q : ℚ,
      (∃ d, leading_digit_py (PyValue.num q) = Except.ok (some d) ∧ 1 ≤ d ∧ d ≤ 9) ∨
        leading_digit_py (PyValue.num q) = Except.ok none := by
  refine ⟨rfl, rfl, rfl, rfl, rfl, by simp [leading_digit_py, BenfordAnalysis.leading_digit], ?_⟩
  intro q
  cases hv : BenfordAnalysis.leading_digit (Value.num q) with
  | none => exact Or.inr (by simp [leading_digit_py, hv])
  | some d =>
    obtain ⟨h1, h2⟩ := BenfordAnalysis.leading_digit_range (Value.num q) d hv
    exact Or.inl ⟨d, by simp [leading_digit_py, hv], h1, h2⟩

/-- C8: concrete values of `leading_digit`: 0 and missing give `none`,
-45 gives 4, 0.0032 gives 3, 7 gives 7; and a returned digit always lies
in 1..9, never 0. -/
theorem C8_leading_digit_values :
    BenfordAnalysis.leading_digit (Value.num 0) = none ∧
    BenfordAnalysis.leading_digit Value.missing = none ∧
    BenfordAnalysis.leading_digit (Value.num (-45)) = some 4 ∧
    BenfordAnalysis.leading_digit (Value.num 0.0032) = some 3 ∧
    BenfordAnalysis.leading_digit (Value.num 7) = some 7 ∧
    ∀ v d, BenfordAnalysis.leading_digit v = some d → 1 ≤ d ∧ d ≤ 9 := by
  refine ⟨by simp [BenfordAnalysis.leading_digit], rfl,
    BenfordAnalysis.leading_digit_neg45, BenfordAnalysis.leading_digit_small,
    BenfordAnalysis.leading_digit_seven, BenfordAnalysis.leading_digit_range⟩

/-- C5: each analyzed column yields exactly 9 detail rows with digits 1..9
ascending, and the nine counts add up to the summary's `total_values`. -/
theorem C5_nine_rows (series : List Value) (sheet column : String) :
    ((BenfordAnalysis.analyze_numeric_column series sheet column).1.map fun r => r.digit) =
      [1, 2, 3, 4, 5, 6, 7, 8, 9] ∧
    (BenfordAnalysis.analyze_numeric_column series sheet column).1.length = 9 ∧
    ((BenfordAnalysis.analyze_numeric_column series sheet column).1.map fun r => r.count).sum =
      (BenfordAnalysis.analyze_numeric_column series sheet column).2.total_values := by
  refine ⟨rfl, rfl, ?_⟩
  show ((List.range' 1 9).map fun d => BenfordAnalysis.digitCount series d).sum =
    BenfordAnalysis.totalValues series
  rw [sum_map_range_eq_sum_Icc]
  exact sum_Icc_count_eq_length _ (BenfordAnalysis.mem_extractedDigits series)

/-- C1: a column with no valid digits reports `chi_square = 0` and `mad = 0`
exactly, and every detail row has proportion 0 and difference
`0 - expected_proportion`. -/
theorem C1_zero_guard (series : List Value) (sheet column : String)
    (h : (BenfordAnalysis.analyze_numeric_column series sheet column).2.total_values = 0) :
    (BenfordAnalysis.analyze_numeric_column series sheet column).2.chi_square = 0 ∧
    (BenfordAnalysis.analyze_numeric_column series sheet column).2.mad = 0 ∧
    ∀ r ∈ (BenfordAnalysis.analyze_numeric_column series sheet column).1,
      r.proportion = 0 ∧ r.difference = 0 - r.expected_proportion := by
  have h0 : BenfordAnalysis.totalValues series = 0 := h
  have hneg : ¬ 0 < BenfordAnalysis.totalValues series := by omega
  refine ⟨?_, ?_, ?_⟩
  · show (if 0 < BenfordAnalysis.totalValues series then _ else (0 : ℝ)) = 0
    rw [if_neg hneg]
  · show (if 0 < BenfordAnalysis.totalValues series then _ else (0 : ℝ)) = 0
    rw [if_neg hneg]
  · intro r hr
    simp only [BenfordAnalysis.analyze_numeric_column, List.mem_map] at hr
    obtain ⟨d, _, rfl⟩ := hr
    exact ⟨by dsimp only; rw [if_neg hneg], by dsimp only; rw [if_neg hneg, zero_sub]⟩

/-- Witness for C1 at the concrete column `[missing]`. -/
theorem C1_zero_guard_witness :
    (BenfordAnalysis.analyze_numeric_column [Value.missing] "S1" "C1").2.total_values = 0 ∧
    ((BenfordAnalysis.analyze_numeric_column [Value.missing] "S1" "C1").2.chi_square = 0 ∧
     (BenfordAnalysis.analyze_numeric_column [Value.missing] "S1" "C1").2.mad = 0 ∧
     ∀ r ∈ (BenfordAnalysis.analyze_numeric_column [Value.missing] "S1" "C1").1,
       r.proportion = 0 ∧ r.difference = 0 - r.expected_proportion) :=
  ⟨rfl, C1_zero_guard [Value.missing] "S1" "C1" rfl⟩

/-- C4: for a column with at least one valid digit, the summary's
`chi_square` and `mad` are exactly the chi-square and mean-absolute-deviation
formulas over digits 1..9 with expected proportions `log10(1 + 1/d)`. -/
theorem C4_summary_formulas (series : List Value) (sheet column : String)
    (h : 0 < (BenfordAnalysis.analyze_numeric_column series sheet column).2.total_values) :
    (BenfordAnalysis.analyze_numeric_column series sheet column).2.chi_square =
      ∑ d ∈ Finset.Icc 1 9,
        ((BenfordAnalysis.digitCount series d : ℝ) -
            Real.logb 10 (1 + 1 / (d : ℝ)) *
              ((BenfordAnalysis.analyze_numeric_column series sheet column).2.total_values : ℝ)) ^ 2 /
          (Real.logb 10 (1 + 1 / (d : ℝ)) *
            ((BenfordAnalysis.analyze_numeric_column series sheet column).2.total_values : ℝ)) ∧
    (BenfordAnalysis.analyze_numeric_column series sheet column).2.mad =
      (1 / 9) * ∑ d ∈ Finset.Icc 1 9,
        |(BenfordAnalysis.digitCount series d : ℝ) /
            ((BenfordAnalysis.analyze_numeric_column series sheet column).2.total_values : ℝ) -
          Real.logb 10 (1 + 1 / (d : ℝ))| := by
  have h0 : 0 < BenfordAnalysis.totalValues series := h
  have hprop : ∀ d, BenfordAnalysis.proportionOf series d =
      (BenfordAnalysis.digitCount series d : ℝ) / (BenfordAnalysis.totalValues series : ℝ) :=
    fun d => if_pos h0
  constructor
  · show (if 0 < BenfordAnalysis.totalValues series then _ else (0 : ℝ)) = _
    rw [if_pos h0, sum_map_range_eq_sum_Icc]
    rfl
  · show (if 0 < BenfordAnalysis.totalValues series then _ else (0 : ℝ)) = _
    rw [if_pos h0]
    simp only [hprop, BenfordAnalysis.expected_benford_distribution]
    rw [sum_map_range_eq_sum_Icc]
    have htv : (BenfordAnalysis.analyze_numeric_column series sheet column).2.total_values =
        BenfordAnalysis.totalValues series := rfl
    rw [htv]
    ring

namespace BenfordAnalysis

/-- Concrete evaluation: the column `[1]` has one valid digit. -/
theorem totalValues_single_one : totalValues [Value.num 1] = 1 := by
  simp [totalValues, extractedDigits, leading_digit_one]

end BenfordAnalysis

/-- Witness for C4 at the concrete column `[1]`. -/
theorem C4_summary_formulas_witness :
    0 < (BenfordAnalysis.analyze_numeric_column [Value.num 1] "S1" "C1").2.total_values ∧
    ((BenfordAnalysis.analyze_numeric_column [Value.num 1] "S1" "C1").2.chi_square =
      ∑ d ∈ Finset.Icc 1 9,
        ((BenfordAnalysis.digitCount [Value.num 1] d : ℝ) -
            Real.logb 10 (1 + 1 / (d : ℝ)) *
              ((BenfordAnalysis.analyze_numeric_column [Value.num 1] "S1" "C1").2.total_values : ℝ)) ^ 2 /
          (Real.logb 10 (1 + 1 / (d : ℝ)) *
            ((BenfordAnalysis.analyze_numeric_column [Value.num 1] "S1" "C1").2.total_values : ℝ)) ∧
    (BenfordAnalysis.analyze_numeric_column [Value.num 1] "S1" "C1").2.mad =
      (1 / 9) * ∑ d ∈ Finset.Icc 1 9,
        |(BenfordAnalysis.digitCount [Value.num 1] d : ℝ) /
            ((BenfordAnalysis.analyze_numeric_column [Value.num 1] "S1" "C1").2.total_values : ℝ) -
          Real.logb 10 (1 + 1 / (d : ℝ))|) :=
  have h : 0 < (BenfordAnalysis.analyze_numeric_column [Value.num 1] "S1" "C1").2.total_values := by
    show 0 < BenfordAnalysis.totalValues [Value.num 1]
    rw [BenfordAnalysis.totalValues_single_one]
    norm_num
  ⟨h, C4_summary_formulas [Value.num 1] "S1" "C1" h⟩

/-- C9: the analysis of a column is invariant under permutation of its
values: counts, proportions, chi-square, MAD and the detail rows are
order-independent. -/
theorem C9_perm_invariant (series series' : List Value) (sheet column : String)
    (h : series.Perm series') :
    BenfordAnalysis.analyze_numeric_column series sheet column =
      BenfordAnalysis.analyze_numeric_column series' sheet column := by
  have hdig : (BenfordAnalysis.extractedDigits series).Perm
      (BenfordAnalysis.extractedDigits series') := h.filterMap BenfordAnalysis.leading_digit
  have htot : BenfordAnalysis.totalValues series = BenfordAnalysis.totalValues series' :=
    hdig.length_eq
  have hcount : BenfordAnalysis.digitCount series = BenfordAnalysis.digitCount series' := by
    funext d
    exact hdig.count_eq d
  have hprop : BenfordAnalysis.proportionOf series = BenfordAnalysis.proportionOf series' := by
    funext d
    simp only [BenfordAnalysis.proportionOf]
    rw [htot, hcount]
  simp only [BenfordAnalysis.analyze_numeric_column]
  rw [htot, hcount, hprop]

/-- Witness for C9 at a concrete transposition. -/
theorem C9_perm_invariant_witness :
    ([Value.num 1, Value.missing]).Perm [Value.missing, Value.num 1] ∧
    BenfordAnalysis.analyze_numeric_column [Value.num 1, Value.missing] "S1" "C1" =
      BenfordAnalysis.analyze_numeric_column [Value.missing, Value.num 1] "S1" "C1" :=
  ⟨List.Perm.swap Value.missing (Value.num 1) [],
   C9_perm_invariant [Value.num 1, Value.missing] [Value.missing, Value.num 1] "S1" "C1"
     (List.Perm.swap Value.missing (Value.num 1) [])⟩

/-- Rewriting one Benford term as a difference of logarithms. -/
theorem logb_one_add_inv (k : ℝ) (hk : 0 < k) :
    Real.logb 10 (1 + 1 / k) = Real.logb 10 (k + 1) - Real.logb 10 k := by
  have hk0 : k ≠ 0 := ne_of_gt hk
  have h1 : (1 : ℝ) + 1 / k = (k + 1) / k := by field_simp
  rw [h1, Real.logb_div (by positivity) hk0]

/-- C7: the expected distribution is exactly `d ↦ log10(1 + 1/d)` and its
nine values over digits 1..9 sum to 1 within 1e-9 (indeed exactly to 1). -/
theorem C7_expected_distribution :
    (∀ d, BenfordAnalysis.expected_benford_distribution d =
      Real.logb 10 (1 + 1 / (d : ℝ))) ∧
    |(∑ d ∈ Finset.Icc 1 9, BenfordAnalysis.expected_benford_distribution d) - 1| ≤ 1e-9 := by
  have hsum : ∑ d ∈ Finset.Icc 1 9, BenfordAnalysis.expected_benford_distribution d = 1 := by
    rw [← sum_map_range_eq_sum_Icc]
    rw [show List.range' 1 9 = [1, 2, 3, 4, 5, 6, 7, 8, 9] from rfl]
    simp only [List.map_cons, List.map_nil, List.sum_cons, List.sum_nil,
      BenfordAnalysis.expected_benford_distribution]
    push_cast
    rw [logb_one_add_inv 1 (by norm_num), logb_one_add_inv 2 (by norm_num),
      logb_one_add_inv 3 (by norm_num), logb_one_add_inv 4 (by norm_num),
      logb_one_add_inv 5 (by norm_num), logb_one_add_inv 6 (by norm_num),
      logb_one_add_inv 7 (by norm_num), logb_one_add_inv 8 (by norm_num),
      logb_one_add_inv 9 (by norm_num)]
    norm_num
  refine ⟨fun d => rfl, ?_⟩
  rw [hsum]
  norm_num

/-- The duplicated `msd` helpers agree. -/
theorem eq_msd (n : ℕ) : BenfordAnalysis.msd n = BenfordExcelReport.msd n := by
  induction n using BenfordAnalysis.msd.induct with
  | case1 n h => rw [BenfordAnalysis.msd, BenfordExcelReport.msd]; simp [h]
  | case2 n h ih => rw [BenfordAnalysis.msd, BenfordExcelReport.msd]; simp [h, ih]

/-- The duplicated scale-up loops agree. -/
theorem eq_scaleUp (q : ℚ) (hq : 0 < q) :
    BenfordAnalysis.scaleUp q hq = BenfordExcelReport.scaleUp q hq := by
  induction q, hq using BenfordAnalysis.scaleUp.induct with
  | case1 q hq h ih =>
    rw [BenfordAnalysis.scaleUp, BenfordExcelReport.scaleUp, if_pos h, if_pos h]
    exact ih
  | case2 q hq h =>
    rw [BenfordAnalysis.scaleUp, BenfordExcelReport.scaleUp, if_neg h, if_neg h]

/-- The duplicated `leading_digit` functions agree. -/
theorem eq_leading_digit (v : Value) :
    BenfordAnalysis.leading_digit v = BenfordExcelReport.leading_digit v := by
  cases v with
  | missing => rfl
  | nonNumeric => rfl
  | num q =>
    by_cases hq : q = 0
    · simp [BenfordAnalysis.leading_digit, BenfordExcelReport.leading_digit, hq]
    · simp only [BenfordAnalysis.leading_digit, BenfordExcelReport.leading_digit, dif_neg hq]
      rw [eq_scaleUp, eq_msd]

/-- The duplicated digit-extraction pipelines agree. -/
theorem eq_extractedDigits (series : List Value) :
    BenfordAnalysis.extractedDigits series = BenfordExcelReport.extractedDigits series := by
  simp only [BenfordAnalysis.extractedDigits, BenfordExcelReport.extractedDigits]
  rw [show BenfordAnalysis.leading_digit = BenfordExcelReport.leading_digit from
    funext eq_leading_digit]

/-- The duplicated totals agree. -/
theorem eq_totalValues (series : List Value) :
    BenfordAnalysis.totalValues series = BenfordExcelReport.totalValues series := by
  simp only [BenfordAnalysis.totalValues, BenfordExcelReport.totalValues, eq_extractedDigits]

/-- The duplicated per-digit counts agree. -/
theorem eq_digitCount (series : List Value) :
    BenfordAnalysis.digitCount series = BenfordExcelReport.digitCount series := by
  funext d
  simp only [BenfordAnalysis.digitCount, BenfordExcelReport.digitCount, eq_extractedDigits]

/-- The duplicated proportions agree. -/
theorem eq_proportionOf (series : List Value) :
    BenfordAnalysis.proportionOf series = BenfordExcelReport.proportionOf series := by
  funext d
  simp only [BenfordAnalysis.proportionOf, BenfordExcelReport.proportionOf,
    eq_totalValues, eq_digitCount]

/-- C10: the analysis core duplicated in the two scripts is equivalent:
`leading_digit`, `expected_benford_distribution` and
`analyze_numeric_column` agree between `benford_analysis.py` and
`benford_excel_report.py` on every input. -/
theorem C10_duplicated_core_equivalent :
    (∀ v, BenfordAnalysis.leading_digit v = BenfordExcelReport.leading_digit v) ∧
    BenfordAnalysis.expected_benford_distribution =
      BenfordExcelReport.expected_benford_distribution ∧
    ∀ series sheet column,
      BenfordAnalysis.analyze_numeric_column series sheet column =
        BenfordExcelReport.analyze_numeric_column series sheet column := by
  refine ⟨eq_leading_digit, rfl, fun series sheet column => ?_⟩
  simp only [BenfordAnalysis.analyze_numeric_column, BenfordExcelReport.analyze_numeric_column]
  rw [eq_totalValues, eq_digitCount, eq_proportionOf]
  exact rfl

/-- C2 (amended): every possible result of the ranking step is sorted
non-increasing in `mad` and truncated to `min 10 n` entries, and such a
result always exists; the relative order of equal-`mad` summaries is not
part of the contract, because pandas' default quicksort is unstable. -/
theorem C2_ranking (summaries : List ColumnSummary) :
    (∃ output, BenfordAnalysis.IsTopDeviations summaries output) ∧
    ∀ output, BenfordAnalysis.IsTopDeviations summaries output →
      output.Pairwise (fun a b => b.mad ≤ a.mad) ∧
      output.length = min 10 summaries.length := by
  constructor
  · set le : ColumnSummary → ColumnSummary → Bool := fun a b => decide (b.mad ≤ a.mad) with hle
    have htrans : ∀ a b c, le a b → le b c → le a c := by
      intro a b c hab hbc
      simp only [hle, decide_eq_true_eq] at hab hbc ⊢
      exact le_trans hbc hab
    have htotal : ∀ a b, le a b || le b a := by
      intro a b
      simp only [hle]
      rcases le_total b.mad a.mad with h | h
      · simp [h]
      · simp [h]
    have hs : (summaries.mergeSort le).Pairwise fun a b => le a b :=
      List.sorted_mergeSort htrans htotal summaries
    have hs' : (summaries.mergeSort le).Pairwise fun a b => b.mad ≤ a.mad := by
      refine hs.imp ?_
      intro a b hab
      simpa [hle, decide_eq_true_eq] using hab
    exact ⟨(summaries.mergeSort le).take 10,
      summaries.mergeSort le, List.mergeSort_perm summaries le, hs', rfl⟩
  · rintro output ⟨sorted, hperm, hpair, rfl⟩
    constructor
    · exact hpair.sublist (List.take_sublist _ _)
    · rw [List.length_take, hperm.length_eq]

/-- C2 counterexample: the ranking contract admits the output
`[tieB, tieA]` for the input `[tieA, tieB]`, whose two summaries have equal
`mad`: summaries with equal `mad` need not keep their original relative
input order, so the stable-sort clause of the claim does not hold of the
code. -/
theorem C2_ranking_counterexample :
    BenfordAnalysis.IsTopDeviations [tieA, tieB] [tieB, tieA] ∧
    tieA.mad = tieB.mad ∧
    tieB ≠ tieA ∧
    ¬ List.Sublist ([tieB, tieA].filter fun r => decide (r.mad = tieA.mad))
      ([tieA, tieB].filter fun r => decide (r.mad = tieA.mad)) := by
  have hBA : [tieB, tieA].filter (fun r => decide (r.mad = tieA.mad)) = [tieB, tieA] :=
    List.filter_eq_self.mpr fun a ha => by
      rcases List.mem_pair.mp ha with rfl | rfl <;> simp [tieA, tieB]
  have hAB : [tieA, tieB].filter (fun r => decide (r.mad = tieA.mad)) = [tieA, tieB] :=
    List.filter_eq_self.mpr fun a ha => by
      rcases List.mem_pair.mp ha with rfl | rfl <;> simp [tieA, tieB]
  refine ⟨⟨[tieB, tieA], List.Perm.swap tieA tieB [], ?_, rfl⟩, rfl, ?_, ?_⟩
  · simp [List.pairwise_cons, tieA, tieB]
  · simp [tieA, tieB]
  · intro hsub
    rw [hBA, hAB] at hsub
    have heq := hsub.eq_of_length rfl
    simp [tieA, tieB] at heq

/-- The `all_digits` accumulator pools exactly the extracted digits of every
column: the emptiness guard before `extend` changes nothing. -/
theorem all_digits_eq (corpus : BenfordExcelReport.Corpus) :
    BenfordExcelReport.all_digits corpus =
      corpus.flatMap fun sheet => sheet.2.flatMap fun col =>
        BenfordExcelReport.extractedDigits col.2 := by
  have hif : ∀ (l : List ℕ), (if l.isEmpty then [] else l) = l := by
    intro l
    cases l <;> simp
  simp only [BenfordExcelReport.all_digits, hif]

/-- Every pooled digit lies in 1..9. -/
theorem mem_all_digits_range (corpus : BenfordExcelReport.Corpus) (x : ℕ)
    (hx : x ∈ BenfordExcelReport.all_digits corpus) : 1 ≤ x ∧ x ≤ 9 := by
  rw [all_digits_eq] at hx
  simp only [List.mem_flatMap] at hx
  obtain ⟨sheet, _, col, _, hmem⟩ := hx
  rw [← eq_extractedDigits] at hmem
  exact BenfordAnalysis.mem_extractedDigits _ x hmem

/-- The pooled digit list is as long as the per-column totals add up to. -/
theorem length_all_digits (corpus : BenfordExcelReport.Corpus) :
    (BenfordExcelReport.all_digits corpus).length =
      ((BenfordExcelReport.summary_rows corpus).map fun r => r.total_values).sum := by
  induction corpus with
  | nil => rfl
  | cons sheet rest ih =>
    have hsheet : ∀ (cols : List (String × List Value)),
        (cols.flatMap fun col =>
          let digits := BenfordExcelReport.extractedDigits col.2
          if digits.isEmpty then [] else digits).length =
        (((cols.map fun col =>
            (BenfordExcelReport.analyze_numeric_column col.2 sheet.1 col.1).2)).map
              fun r => r.total_values).sum := by
      intro cols
      induction cols with
      | nil => rfl
      | cons col rest2 ih2 =>
        simp only [List.flatMap_cons, List.map_cons, List.length_append, List.sum_cons, ih2]
        congr 1
        show (if (BenfordExcelReport.extractedDigits col.2).isEmpty then []
          else BenfordExcelReport.extractedDigits col.2).length =
          BenfordExcelReport.totalValues col.2
        cases h : BenfordExcelReport.extractedDigits col.2 <;>
          simp [BenfordExcelReport.totalValues, h]
    simp only [BenfordExcelReport.all_digits, BenfordExcelReport.summary_rows,
      List.flatMap_cons, List.length_append, List.map_append, List.sum_append] at ih ⊢
    rw [hsheet sheet.2, ih]

/-- C6: the pooled overall distribution: per-digit `actual_count` is the
number of occurrences of the digit among all extracted digits of all
analyzed columns; the nine counts add up to the sum of all `total_values`;
`actual_percent` is `count/overall_total` (0 throughout when the pool is
empty); `expected_percent` is `log10(1 + 1/d)`. -/
theorem C6_overall_distribution (corpus : BenfordExcelReport.Corpus) :
    ((BenfordExcelReport.overall_table corpus).map fun r => r.actual_count) =
      ((List.range' 1 9).map fun d =>
        (corpus.flatMap fun sheet => sheet.2.flatMap fun col =>
          BenfordExcelReport.extractedDigits col.2).count d) ∧
    ((BenfordExcelReport.overall_table corpus).map fun r => r.actual_count).sum =
      ((BenfordExcelReport.summary_rows corpus).map fun r => r.total_values).sum ∧
    (∀ r ∈ BenfordExcelReport.overall_table corpus,
      r.actual_percent =
        if 0 < BenfordExcelReport.overall_total corpus then
          (r.actual_count : ℝ) / (BenfordExcelReport.overall_total corpus : ℝ)
        else 0) ∧
    ((BenfordExcelReport.overall_table corpus).map fun r => r.expected_percent) =
      (List.range' 1 9).map fun d => Real.logb 10 (1 + 1 / (d : ℝ)) := by
  have hcounts : ((BenfordExcelReport.overall_table corpus).map fun r => r.actual_count) =
      (List.range' 1 9).map fun d => BenfordExcelReport.overall_count corpus d := rfl
  refine ⟨?_, ?_, ?_, rfl⟩
  · rw [hcounts]
    simp only [BenfordExcelReport.overall_count, all_digits_eq]
  · rw [hcounts, sum_map_range_eq_sum_Icc]
    show (∑ d ∈ Finset.Icc 1 9, (BenfordExcelReport.all_digits corpus).count d) = _
    rw [sum_Icc_count_eq_length _ (mem_all_digits_range corpus), length_all_digits]
  · intro r hr
    simp only [BenfordExcelReport.overall_table, List.mem_map] at hr
    obtain ⟨d, hd, rfl⟩ := hr
    dsimp only
    by_cases hpos : 0 < BenfordExcelReport.overall_total corpus
    · rw [if_pos hpos]
      show BenfordExcelReport.overall_proportion corpus d = _
      rw [BenfordExcelReport.overall_proportion, if_pos hpos]
    · rw [if_neg hpos]
      show BenfordExcelReport.overall_proportion corpus d = 0
      rw [BenfordExcelReport.overall_proportion, if_neg hpos]
      have htot0 : BenfordExcelReport.overall_total corpus = 0 := by omega
      have hcount0 : BenfordExcelReport.overall_count corpus d = 0 := by
        have h := htot0
        rw [BenfordExcelReport.overall_total, sum_map_range_eq_sum_Icc] at h
        have hdIcc : d ∈ Finset.Icc 1 9 := by
          rw [Finset.mem_Icc]
          have := List.mem_range'_1.mp hd
          omega
        exact (Finset.sum_eq_zero_iff.mp h) d hdIcc
      rw [hcount0]
      norm_num
